import Mathlib

/-!
Verification of the email secure-envelope engine
(`src/backend/src/services/email.ts`) against its specification.

JavaScript strings are modelled as `List Char` (code units; all material in
the claims is ASCII).  Decoded base64 payloads are modelled as `List Nat`
(bytes); Node's final `Buffer.toString('utf8')` step is kept as the raw byte
sequence, which agrees with the string for ASCII content.  A value of
`none` / `Except.error` models a thrown JavaScript exception (a rejected
promise).
-/

/-- Convert a Lean string literal to the `List Char` model of a JS string. -/
def str (s : String) : List Char := s.data

/-- Convert a Lean string literal to the `List Nat` model of a byte sequence
(ASCII code points). -/
def strN (s : String) : List Nat := s.data.map Char.toNat

/-- The ASCII fragment of JavaScript's `String.prototype.trim` whitespace set
(space, tab, LF, VT, FF, CR; the non-ASCII members never occur in the
material under study). -/
def isJsWs (c : Char) : Bool :=
  c = ' ' || c = '\t' || c = '\n' || c = '\r' || c.toNat = 11 || c.toNat = 12

/-- `String.prototype.trim`: strip leading and trailing whitespace. -/
def jsTrim (s : List Char) : List Char :=
  ((s.dropWhile isJsWs).reverse.dropWhile isJsWs).reverse

/-- Substring test: models a truthy `s.match('needle')` for a needle with no
regex metacharacters (plain substring search). -/
def containsSubstr : List Char → List Char → Bool
  | [], needle => needle.isEmpty
  | c :: t, needle => needle.isPrefixOf (c :: t) || containsSubstr t needle

/-- The literal character sequence `"\r\n--BEGIN"` required by the second
regex of `ExtractBody`. -/
def crlfBegin : List Char := str "\r\n--BEGIN"

/-- First-match semantics of the JS regex `/(.+)(\r\n--BEGIN)/` applied to a
string: group 1 of the first match, or `none` when the regex does not match.
`.` in JS matches any character except a line terminator, so group 1 is the
maximal run of non-terminator characters immediately preceding the first
occurrence of `"\r\n--BEGIN"` that is preceded by at least one such
character.  `line` accumulates (reversed) the characters of the current line.
(The non-ASCII terminators U+2028/U+2029 are outside the modelled alphabet.) -/
def matchGo : List Char → List Char → Option (List Char)
  | _, [] => none
  | line, c :: rs =>
    if crlfBegin.isPrefixOf (c :: rs) && !line.isEmpty then some line.reverse
    else if c = '\r' || c = '\n' then matchGo [] rs
    else matchGo (c :: line) rs

/-- `EmailService.ExtractBody` (email.ts:220-229).  If the text contains the
substring `--BEGIN` it evaluates `email.match(/(.+)(\r\n--BEGIN)/)[1].trim()`
— `none` models the `TypeError` thrown when that regex does not match
(indexing into `null`); otherwise it returns `email.trim()`. -/
def ExtractBody (email : List Char) : Option (List Char) :=
  if containsSubstr email (str "--BEGIN") then (matchGo [] email).map jsTrim
  else some (jsTrim email)

/-- Modelled from the spec: the begin marker line of the signature block
(`---BEGIN_SIGNATURE---`).  The wrapping itself happens inside the external
`digital_signature/ecdsa.py` script, which is not under `src/`. -/
def specBegin : List Char := str "---BEGIN_SIGNATURE---"

/-- Modelled from the spec: the end marker line of the signature block. -/
def specEnd : List Char := str "---END_SIGNATURE---"

/-- Modelled from the spec: `Wrap(digest)` frames the digest between the
marker lines with a single line break on each side (the framing is performed
by `digital_signature/ecdsa.py`, which is not under `src/`). -/
def Wrap (digest : List Char) : List Char :=
  specBegin ++ ('\n' :: digest) ++ ('\n' :: specEnd)

/-- Modelled from the spec: `Compose(body, signatureBlock)` appends the
signature block to the body separated by a line break (`result.join('\n')`
in `GenerateMessageWithSignature` joins the script's output lines with bare
LF). -/
def Compose (body sig : List Char) : List Char :=
  body ++ ('\n' :: sig)

/-- The `while` loop of `ProcessKeyToLengthEight` (email.ts:149-156):
`while (refinedKey.length < 8) refinedKey += key`.  `fuel` bounds the number
of iterations; `none` means the loop has not finished within `fuel`
iterations (for the empty key no amount of fuel suffices). -/
def processLoop (key : List Char) : Nat → List Char → Option (List Char)
  | fuel, acc =>
    if 8 ≤ acc.length then some acc
    else
      match fuel with
      | 0 => none
      | f + 1 => processLoop key f (acc ++ key)

/-- `EmailService.ProcessKeyToLengthEight` (email.ts:149-156): repeat the key
until its length reaches 8, then `slice(0, 8)`. -/
def ProcessKeyToLengthEight (fuel : Nat) (key : List Char) : Option (List Char) :=
  (processLoop key fuel key).map (fun r => r.take 8)

/-- `body.trim().replace(/\r\n/g, '\n')` — the global, non-overlapping,
left-to-right replacement of CRLF pairs by LF performed in `Verification`
before signature checking. -/
def replaceCRLF : List Char → List Char
  | '\r' :: '\n' :: rest => '\n' :: replaceCRLF rest
  | c :: rest => c :: replaceCRLF rest
  | [] => []

/-- Split a string at the first occurrence of `needle`: returns the part
strictly before it and the part strictly after it, or `none` when `needle`
does not occur. -/
def splitOnceAt (needle : List Char) : List Char → Option (List Char × List Char)
  | [] => if needle.isEmpty then some ([], []) else none
  | c :: t =>
    if needle.isPrefixOf (c :: t) then some ([], (c :: t).drop needle.length)
    else
      match splitOnceAt needle t with
      | none => none
      | some (pre, post) => some (c :: pre, post)

/-- Drop leading and trailing line-break characters. -/
def trimNL (s : List Char) : List Char :=
  ((s.dropWhile (fun c => c = '\r' || c = '\n')).reverse.dropWhile
    (fun c => c = '\r' || c = '\n')).reverse

/-- Modelled from the spec: the `verify` mode of the external
`digital_signature/ecdsa.py` script (invoked by `VerifySignature`,
email.ts:204-218; the script itself is not under `src/`).  Per the spec's
DigestSigner/EnvelopeParser: locate the signature block between the marker
lines, recompute the digest of the content before the block and compare for
exact equality; when no begin marker (or no end marker) is present there is
no signature block to extract and the subprocess fails, surfacing as a
rejected promise (`Except.error`).  The digest primitive itself is a
parameter. -/
def ecdsaVerify (digest : List Char → List Char) (text : List Char) : Except Unit Bool :=
  match splitOnceAt specBegin text with
  | none => Except.error ()
  | some (pre, rest) =>
    match splitOnceAt specEnd rest with
    | none => Except.error ()
    | some (mid, _) => Except.ok (digest (trimNL pre) == trimNL mid)

/-- The result object built by `Verification`: each key is present only when
the corresponding flag was set. -/
structure VerificationResult where
  decrypted_body : Option (List Char)
  signature_validity : Option Bool
  deriving Repr, DecidableEq

/-- `EmailService.Verification` (email.ts:231-247).  `decryptPrim` models
`DecryptText` (the external block cipher) and `verifyPrim` models
`VerifySignature` (the external ECDSA script); both are parameters because
the scripts are not under `src/`.  The body is first passed through
`ExtractBody` (a throw there rejects the whole call); decryption, when
requested, runs before signature verification; signature verification is
applied to `body.trim().replace(/\r\n/g, '\n')`. -/
def Verification (decryptPrim : List Char → List Char → Except Unit (List Char))
    (verifyPrim : List Char → Except Unit Bool)
    (body key : List Char) (decrypt verifySignature : Bool) :
    Except Unit VerificationResult := do
  let emailText ← match ExtractBody body with
    | none => Except.error ()
    | some b => Except.ok b
  let db ←
    if decrypt then
      match decryptPrim emailText key with
      | Except.error e => Except.error e
      | Except.ok d => Except.ok (some d)
    else Except.ok none
  let sv ←
    if verifySignature then
      match verifyPrim (replaceCRLF (jsTrim body)) with
      | Except.error e => Except.error e
      | Except.ok v => Except.ok (some v)
    else Except.ok none
  return { decrypted_body := db, signature_validity := sv }

mutual

/-- A node of the gmail `Schema$MessagePart` tree: a mime type, an optional
base64-encoded body payload (`body.data`), and the list of child parts. -/
inductive MessagePart : Type where
  | part (mimeType : List Char) (body : Option (List Char)) (parts : PartList)

/-- The (possibly empty) ordered children of a `MessagePart`. -/
inductive PartList : Type where
  | pnil
  | pcons (p : MessagePart) (ps : PartList)

end

/-- The value of a base64 alphabet character (`A-Z a-z 0-9 + /`), or `none`
for any character outside the alphabet. -/
def b64Val (c : Char) : Option Nat :=
  let n := c.toNat
  if 65 ≤ n && n ≤ 90 then some (n - 65)
  else if 97 ≤ n && n ≤ 122 then some (n - 97 + 26)
  else if 48 ≤ n && n ≤ 57 then some (n - 48 + 52)
  else if c = '+' then some 62
  else if c = '/' then some 63
  else none

/-- Turn a run of base64 digit values into bytes: each full group of four
6-bit values yields three bytes, a trailing group of three yields two, of
two yields one, and a lone trailing value yields nothing. -/
def decodeQuads : List Nat → List Nat
  | a :: b :: c :: d :: rest =>
    (a * 4 + b / 16) :: ((b % 16) * 16 + c / 4) :: ((c % 4) * 64 + d) :: decodeQuads rest
  | [a, b] => [a * 4 + b / 16]
  | [a, b, c] => [a * 4 + b / 16, (b % 16) * 16 + c / 4]
  | _ => []

/-- Node's forgiving base64 decoder (`Buffer.from(s, 'base64')`): it never
throws — decoding stops at the first `=` and every character outside the
base64 alphabet is ignored, so malformed input silently decodes to a
best-effort byte sequence. -/
def nodeB64Decode (s : List Char) : List Nat :=
  decodeQuads ((s.takeWhile (fun c => c ≠ '=')).filterMap b64Val)

/-- `EmailService.DecodeBase64` (email.ts:85-88):
`Buffer.from(encodedString, 'base64').toString()`.  The function is total:
Node's base64 decoder has no failure path for string input.  (The final
UTF-8 `toString` is kept as the decoded byte sequence; the two agree on
ASCII content.) -/
def DecodeBase64 (encodedString : List Char) : List Nat :=
  nodeB64Decode encodedString

mutual

/-- `EmailService.ParseMessagePart` (email.ts:62-83), text component.  A
node whose mime type starts with `multipart` recurses into every child in
order and concatenates the results; a `text/plain` node contributes its
base64-decoded body; every other node contributes nothing (the attachment
branch is commented out in the source).  `none` models the `TypeError`
thrown by `this.DecodeBase64(messagePart.body.data)` when a `text/plain`
node has no body payload. -/
def parsePart : MessagePart → Option (List (List Nat))
  | .part mimeType body parts =>
    if (str "multipart").isPrefixOf mimeType then parseParts parts
    else if mimeType = str "text/plain" then
      match body with
      | none => none
      | some data => some [DecodeBase64 data]
    else some []

/-- `messagePart.parts.map(part => this.ParseMessagePart(part))` followed by
concatenation of the per-child text lists, with a thrown error propagating. -/
def parseParts : PartList → Option (List (List Nat))
  | .pnil => some []
  | .pcons p ps =>
    match parsePart p with
    | none => none
    | some xs =>
      match parseParts ps with
      | none => none
      | some ys => some (xs ++ ys)

end

mutual

/-- The data-model invariant of the spec's MessagePart tree: every
`text/plain` node that is not a multipart container carries a body payload. -/
def wfPart : MessagePart → Bool
  | .part mimeType body parts =>
    if (str "multipart").isPrefixOf mimeType then wfParts parts
    else if mimeType = str "text/plain" then body.isSome
    else true

/-- `wfPart` on every element of a part list. -/
def wfParts : PartList → Bool
  | .pnil => true
  | .pcons p ps => wfPart p && wfParts ps

end

mutual

/-- Stated from the claim's words, for comparison with `parsePart`: the
decoded contents of all `text/plain` leaves of the tree, depth-first
left-to-right, recursing into every child of any node whose mime type starts
with `multipart` and skipping all other non-text nodes. -/
def plainLeaves : MessagePart → List (List Nat)
  | .part mimeType body parts =>
    if (str "multipart").isPrefixOf mimeType then plainLeavesList parts
    else if mimeType = str "text/plain" then [DecodeBase64 (body.getD [])]
    else []

/-- `plainLeaves` over a part list, left to right. -/
def plainLeavesList : PartList → List (List Nat)
  | .pnil => []
  | .pcons p ps => plainLeaves p ++ plainLeavesList ps

end

/-- A gmail message header: `{name, value}`. -/
structure MessageHeader where
  name : List Char
  value : List Char
  deriving Repr, DecidableEq

/-- `EmailService.ExtractHeader` (email.ts:90-96):
`headers.filter(header => header.name === name)`, then `null` when no header
matched and the first match's value otherwise.  The `headers` argument is
optional in the gmail schema; on an absent (`undefined`) list the `.filter`
call throws a `TypeError`, modelled by `Except.error`. -/
def ExtractHeader (headers : Option (List MessageHeader)) (name : List Char) :
    Except Unit (Option (List Char)) :=
  match headers with
  | none => Except.error ()
  | some hs =>
    match hs.filter (fun header => header.name == name) with
    | [] => Except.ok none
    | h :: _ => Except.ok (some h.value)

/-- The `Email` entity (email.ts:8-13); the three header fields are `null`
(`none`) when the corresponding header is absent. -/
structure Email where
  sender : Option (List Char)
  subject : Option (List Char)
  date : Option (List Char)
  body : List Nat
  deriving Repr, DecidableEq

/-- A fetched gmail message as seen by `ProcessEmail`: its payload part tree
and the payload's (optional) header list. -/
structure FetchedMessage where
  payload : MessagePart
  headers : Option (List MessageHeader)

/-- `EmailService.ProcessEmail` (email.ts:45-60): flatten the part tree; if
no `text/plain` content was found return `null` (`Except.ok none`);
otherwise join the texts with `'\n'` (byte 10) and extract the `From`,
`Subject` and `Date` headers.  A throw anywhere rejects the promise. -/
def ProcessEmail (email : FetchedMessage) : Except Unit (Option Email) :=
  match parsePart email.payload with
  | none => Except.error ()
  | some text =>
    if text.length = 0 then Except.ok none
    else
      match ExtractHeader email.headers (str "From") with
      | Except.error e => Except.error e
      | Except.ok sender =>
        match ExtractHeader email.headers (str "Subject") with
        | Except.error e => Except.error e
        | Except.ok subject =>
          match ExtractHeader email.headers (str "Date") with
          | Except.error e => Except.error e
          | Except.ok date =>
            Except.ok (some { sender, subject, date,
                              body := List.intercalate (strN "\n") text })

/-- `Promise.all(emails.map(email => this.ProcessEmail(email.data)))`
(email.ts:36): process every fetched message; the first failure rejects the
whole batch (Promise.all's settled rejection is modelled as the leftmost
failing message). -/
def processAll : List FetchedMessage → Except Unit (List (Option Email))
  | [] => Except.ok []
  | m :: ms =>
    match ProcessEmail m with
    | Except.error e => Except.error e
    | Except.ok r =>
      match processAll ms with
      | Except.error e => Except.error e
      | Except.ok rs => Except.ok (r :: rs)

/-- `EmailService.GetEmails` (email.ts:21-43), processing stage: the listing
and fetching of the messages themselves is the external gmail API, so the
fetched messages are the input.  All messages are processed, `null` results
are filtered out, and the surrounding `catch` rethrows any error unchanged. -/
def GetEmails (msgs : List FetchedMessage) : Except Unit (List Email) :=
  match processAll msgs with
  | Except.error e => Except.error e
  | Except.ok emailsData => Except.ok (emailsData.filterMap id)

/-! ## Helper lemmas -/

lemma crlfBegin_eq : crlfBegin = '\r' :: '\n' :: str "--BEGIN" := by decide

lemma isPrefixOf_append_self (l t : List Char) : l.isPrefixOf (l ++ t) = true := by
  rw [List.isPrefixOf_iff_prefix]
  exact List.prefix_append l t

lemma containsSubstr_append_left (pre hay needle : List Char)
    (h : containsSubstr hay needle = true) :
    containsSubstr (pre ++ hay) needle = true := by
  induction pre with
  | nil => simpa using h
  | cons c t ih => simp [containsSubstr, ih]

lemma containsSubstr_of_isPrefixOf (hay needle : List Char) (hne : needle ≠ [])
    (h : needle.isPrefixOf hay = true) : containsSubstr hay needle = true := by
  cases hay with
  | nil =>
    cases needle with
    | nil => exact absurd rfl hne
    | cons a as => simp [List.isPrefixOf] at h
  | cons c t => simp [containsSubstr, h]

lemma matchGo_cons (line : List Char) (c : Char) (rs : List Char) :
    matchGo line (c :: rs) =
      if crlfBegin.isPrefixOf (c :: rs) && !line.isEmpty then some line.reverse
      else if c = '\r' || c = '\n' then matchGo [] rs
      else matchGo (c :: line) rs := by
  simp [matchGo]

lemma matchGo_through (body : List Char) :
    ∀ (line rest : List Char), (∀ c ∈ body, c ≠ '\r' ∧ c ≠ '\n') →
      (line ≠ [] ∨ body ≠ []) →
      matchGo line (body ++ crlfBegin ++ rest) = some (line.reverse ++ body) := by
  induction body with
  | nil =>
    intro line rest _ hne
    have hl : line ≠ [] := by
      rcases hne with h | h
      · exact h
      · exact absurd rfl h
    have hl' : line.isEmpty = false := by
      cases line with
      | nil => exact absurd rfl hl
      | cons a as => rfl
    have hpre : crlfBegin.isPrefixOf (crlfBegin ++ rest) = true :=
      isPrefixOf_append_self crlfBegin rest
    have hsplit : crlfBegin ++ rest = '\r' :: (('\n' :: str "--BEGIN") ++ rest) := by
      rw [crlfBegin_eq]
      simp
    rw [List.nil_append]
    rw [hsplit] at hpre ⊢
    rw [matchGo_cons, hpre, hl']
    rw [if_pos (by simp)]
    simp
  | cons c b ih =>
    intro line rest hc hne
    have hcr : c ≠ '\r' ∧ c ≠ '\n' := hc c (by simp)
    have hb : ∀ x ∈ b, x ≠ '\r' ∧ x ≠ '\n' := fun x hx => hc x (by simp [hx])
    have hpre : crlfBegin.isPrefixOf (c :: (b ++ crlfBegin ++ rest)) = false := by
      rw [crlfBegin_eq]
      simp [List.isPrefixOf]
      intro hcontra
      exact absurd hcontra.symm hcr.1
    have hterm : (c = '\r' || c = '\n') = false := by
      simp [hcr.1, hcr.2]
    have hstep : (c :: b) ++ crlfBegin ++ rest = c :: (b ++ crlfBegin ++ rest) := by simp
    rw [hstep, matchGo_cons, hpre, hterm]
    rw [if_neg (by simp), if_neg (by simp)]
    rw [ih (c :: line) rest hb (Or.inl (by simp))]
    simp

lemma extractBody_split (body rest : List Char) (hne : body ≠ [])
    (hc : ∀ c ∈ body, c ≠ '\r' ∧ c ≠ '\n') :
    ExtractBody (body ++ crlfBegin ++ rest) = some (jsTrim body) := by
  have hcontains : containsSubstr (body ++ crlfBegin ++ rest) (str "--BEGIN") = true := by
    have hassoc : body ++ crlfBegin ++ rest
        = (body ++ ['\r', '\n']) ++ (str "--BEGIN" ++ rest) := by
      rw [crlfBegin_eq]
      simp
    rw [hassoc]
    exact containsSubstr_append_left _ _ _
      (containsSubstr_of_isPrefixOf _ _ (by decide) (isPrefixOf_append_self _ rest))
  have hmatch : matchGo [] (body ++ crlfBegin ++ rest) = some body := by
    simpa using matchGo_through body [] rest hc (Or.inr hne)
  simp only [ExtractBody]
  rw [hcontains]
  rw [if_pos rfl, hmatch]
  rfl

lemma processLoop_nil : ∀ fuel, processLoop [] fuel [] = none := by
  intro fuel
  induction fuel with
  | zero => rfl
  | succ f ih =>
    rw [processLoop]
    simpa using ih

lemma processLoop_terminates (key : List Char) : ∀ (fuel : Nat) (acc : List Char),
    8 ≤ acc.length + fuel * key.length →
    ∃ r, processLoop key fuel acc = some r ∧ 8 ≤ r.length := by
  intro fuel
  induction fuel with
  | zero =>
    intro acc h
    simp only [Nat.zero_mul, Nat.add_zero] at h
    exact ⟨acc, by simp [processLoop, h], h⟩
  | succ f ih =>
    intro acc h
    by_cases hl : 8 ≤ acc.length
    · exact ⟨acc, by simp [processLoop, hl], hl⟩
    · rw [Nat.succ_mul] at h
      have h' : 8 ≤ (acc ++ key).length + f * key.length := by
        rw [List.length_append]
        omega
      obtain ⟨r, hr, hlen⟩ := ih (acc ++ key) h'
      exact ⟨r, by rw [processLoop]; simp [hl, hr], hlen⟩

/-! ## Claims -/

/-- C1, counterexample: the round-trip law `Parse(Compose(body, Wrap(digest)))
= {body, digest}` fails at `body = "hello"`, `digest = "dgst"`: the composed
envelope joins lines with bare LF, while `ExtractBody` only matches a marker
preceded by a literal CRLF, so parsing throws a `TypeError` (`none`) instead
of returning the body and digest. -/
theorem claim1_counterexample :
    ExtractBody (Compose (str "hello") (Wrap (str "dgst"))) = none := by decide

/-- C1, amended: `ExtractBody` recovers the body only under the code's own
convention — the body must be a single line (no CR/LF), non-empty, stable
under trimming, and the `--BEGIN` marker must be preceded by a literal CRLF;
then parsing the composed text returns the body.  The digest is never
returned: `ExtractBody` yields only the body part. -/
theorem claim1_roundtrip_body (body sig : List Char) (h1 : body ≠ [])
    (h2 : ∀ c ∈ body, c ≠ '\r' ∧ c ≠ '\n') (h3 : jsTrim body = body) :
    ExtractBody (body ++ crlfBegin ++ sig) = some body := by
  rw [extractBody_split body sig h1 h2, h3]

/-- C1, witness: the amended round-trip at the concrete body `"hello"` with a
wrapped digest as the signature block. -/
theorem claim1_witness :
    ExtractBody (str "hello" ++ crlfBegin ++ str "_SIGNATURE---\ndgst\n---END_SIGNATURE---")
      = some (str "hello") :=
  claim1_roundtrip_body _ _ (by decide) (by decide) (by decide)

/-- C3, counterexample: on `"hello\r\n--BEGIN_SIGNATURE"` — a begin marker
with no end marker anywhere — `ExtractBody` returns the split
`some "hello"` instead of raising a malformed-envelope ParseError. -/
theorem claim3_counterexample :
    ExtractBody (str "hello\r\n--BEGIN_SIGNATURE") = some (str "hello") := by decide

/-- C3, amended: `ExtractBody` performs no end-marker check at all.  Whenever
a non-empty single line precedes a CRLF+`--BEGIN` occurrence, it returns a
body/signature split even if the text after the begin marker contains no end
marker; the only error it can raise is a `TypeError` (when the `--BEGIN`
marker is nowhere preceded by CRLF and a non-empty line), not a
malformed-envelope ParseError. -/
theorem claim3_no_end_marker (body rest : List Char) (h1 : body ≠ [])
    (h2 : ∀ c ∈ body, c ≠ '\r' ∧ c ≠ '\n')
    (_h3 : containsSubstr rest (str "END") = false) :
    (ExtractBody (body ++ crlfBegin ++ rest)).isSome = true := by
  rw [extractBody_split body rest h1 h2]
  rfl

/-- C3, witness: the amended statement at a concrete begin-marker-only text. -/
theorem claim3_witness :
    (ExtractBody (str "hello" ++ crlfBegin ++ str "_SIGNATURE garbage")).isSome = true :=
  claim3_no_end_marker _ _ (by decide) (by decide) (by decide)

/-- C4, counterexample: key derivation is not defined for every raw
passphrase — on the empty passphrase the loop body never increases the
length, so no iteration bound suffices and no 8-character key is produced. -/
theorem claim4_counterexample : ProcessKeyToLengthEight 8 [] = none := by decide

/-- C4, amended: for every NON-EMPTY passphrase, derivation terminates (8
iterations always suffice) with a key of exactly 8 characters; passphrases of
length ≥ 8 are truncated to their first 8 characters, never rejected; and
deriving from `"ab"` yields exactly `"abababab"`.  The empty passphrase is
excluded: on it the loop diverges (claim C5). -/
theorem claim4_key_derivation :
    (∀ key : List Char, key ≠ [] →
      ∃ r, ProcessKeyToLengthEight 8 key = some r ∧ r.length = 8 ∧
        (8 ≤ key.length → r = key.take 8)) ∧
    ProcessKeyToLengthEight 8 (str "ab") = some (str "abababab") := by
  constructor
  · intro key hk
    have hkpos : 0 < key.length := List.length_pos.mpr hk
    have h8 : 8 ≤ key.length + 8 * key.length := by omega
    obtain ⟨r, hr, hlen⟩ := processLoop_terminates key 8 key h8
    refine ⟨r.take 8, ?_, ?_, ?_⟩
    · simp [ProcessKeyToLengthEight, hr]
    · rw [List.length_take]
      omega
    · intro hkey8
      have hstop : processLoop key 8 key = some key := by
        rw [processLoop]
        simp [hkey8]
      rw [hr] at hstop
      rw [Option.some.injEq] at hstop
      rw [hstop]
  · decide

/-- C4, witness: the amended statement at the concrete passphrase `"key"`. -/
theorem claim4_witness :
    ∃ r, ProcessKeyToLengthEight 8 (str "key") = some r ∧ r.length = 8 ∧
      (8 ≤ (str "key").length → r = (str "key").take 8) :=
  claim4_key_derivation.1 (str "key") (by decide)

/-- C5: key derivation terminates exactly for non-empty passphrases — on the
empty passphrase the loop never finishes, whatever iteration bound (`fuel`)
it is given, because the accumulated key never grows past length zero; for
every non-empty passphrase any bound of at least 8 iterations completes. -/
theorem claim5_termination :
    (∀ fuel, ProcessKeyToLengthEight fuel [] = none) ∧
    (∀ (key : List Char) (fuel : Nat), key ≠ [] → 8 ≤ fuel →
      (ProcessKeyToLengthEight fuel key).isSome = true) := by
  constructor
  · intro fuel
    simp [ProcessKeyToLengthEight, processLoop_nil]
  · intro key fuel hk h8
    have hkpos : 0 < key.length := List.length_pos.mpr hk
    have hge : 8 ≤ key.length + fuel * key.length := by
      have hmul : fuel ≤ fuel * key.length := Nat.le_mul_of_pos_right fuel hkpos
      omega
    obtain ⟨r, hr, _⟩ := processLoop_terminates key fuel key hge
    simp [ProcessKeyToLengthEight, hr]

/-- C5, witness: the terminating half at the concrete passphrase `"k"` with
the minimal sufficient bound. -/
theorem claim5_witness : (ProcessKeyToLengthEight 8 (str "k")).isSome = true :=
  claim5_termination.2 (str "k") 8 (by decide) (by decide)

/-- C2, counterexample: on the envelope `"hello"` — no signature block — the
verification orchestrator called with `verifySignature = true` and
`decrypt = false` does not return an explicit "no signature present"
outcome: its result type has no such value, and the call rejects with the
external verifier's error (here with the spec-modelled verifier and an
identity digest primitive). -/
theorem claim2_counterexample :
    Verification (fun _ _ => Except.ok []) (ecdsaVerify (fun s => s))
      (str "hello") (str "key") false true = Except.error () := by rfl

/-- C2, amended: on every envelope whose normalized text
(`body.trim().replace(/\r\n/g,'\n')`) contains no begin-signature marker,
`Verification(body, key, false, true)` forwards the whole text to the
external ECDSA verifier and rejects with that subprocess's error — there is
no distinguished "no signature present" outcome — and consequently it never
returns a result at all, in particular never `signatureValid = true`.  This
holds for every digest primitive and every decryption primitive. -/
theorem claim2_no_signature (digest : List Char → List Char)
    (dp : List Char → List Char → Except Unit (List Char))
    (body key : List Char)
    (h : splitOnceAt specBegin (replaceCRLF (jsTrim body)) = none) :
    Verification dp (ecdsaVerify digest) body key false true = Except.error () ∧
    ∀ r : VerificationResult,
      Verification dp (ecdsaVerify digest) body key false true ≠ Except.ok r := by
  have hver : ecdsaVerify digest (replaceCRLF (jsTrim body)) = Except.error () := by
    rw [ecdsaVerify, h]
  have hmain : Verification dp (ecdsaVerify digest) body key false true
      = Except.error () := by
    rw [Verification]
    cases hE : ExtractBody body with
    | none => rfl
    | some b =>
      simp [Bind.bind, Except.bind, hver]
  refine ⟨hmain, fun r hr => ?_⟩
  rw [hmain] at hr
  exact Except.noConfusion hr

/-- C2, witness: the amended statement at the concrete marker-free envelope
`"hello world"`, an identity digest primitive and a trivial decryption
primitive. -/
theorem claim2_witness :
    Verification (fun _ _ => Except.ok []) (ecdsaVerify (fun s => s))
      (str "hello world") (str "k") false true = Except.error () :=
  (claim2_no_signature (fun s => s) (fun _ _ => Except.ok [])
    (str "hello world") (str "k") (by decide)).1

lemma parsePart_part (mimeType : List Char) (body : Option (List Char)) (parts : PartList) :
    parsePart (.part mimeType body parts) =
      if (str "multipart").isPrefixOf mimeType then parseParts parts
      else if mimeType = str "text/plain" then
        match body with
        | none => none
        | some data => some [DecodeBase64 data]
      else some [] := rfl

lemma parseParts_pcons (p : MessagePart) (ps : PartList) :
    parseParts (.pcons p ps) =
      match parsePart p with
      | none => none
      | some xs =>
        match parseParts ps with
        | none => none
        | some ys => some (xs ++ ys) := rfl

lemma wfPart_part (mimeType : List Char) (body : Option (List Char)) (parts : PartList) :
    wfPart (.part mimeType body parts) =
      if (str "multipart").isPrefixOf mimeType then wfParts parts
      else if mimeType = str "text/plain" then body.isSome
      else true := rfl

lemma plainLeaves_part (mimeType : List Char) (body : Option (List Char)) (parts : PartList) :
    plainLeaves (.part mimeType body parts) =
      if (str "multipart").isPrefixOf mimeType then plainLeavesList parts
      else if mimeType = str "text/plain" then [DecodeBase64 (body.getD [])]
      else [] := rfl

mutual

lemma parsePart_eq_plainLeaves : ∀ t : MessagePart, wfPart t = true →
    parsePart t = some (plainLeaves t)
  | .part mimeType body parts, h => by
    rw [parsePart_part, plainLeaves_part]
    rw [wfPart_part] at h
    by_cases hm : (str "multipart").isPrefixOf mimeType
    · simp only [hm, if_true] at h ⊢
      exact parseParts_eq_plainLeavesList parts h
    · simp only [hm, if_false] at h ⊢
      by_cases ht : mimeType = str "text/plain"
      · simp only [ht, if_true] at h ⊢
        cases body with
        | none => simp at h
        | some data => simp
      · simp [ht]

lemma parseParts_eq_plainLeavesList : ∀ ps : PartList, wfParts ps = true →
    parseParts ps = some (plainLeavesList ps)
  | .pnil, _ => rfl
  | .pcons p ps, h => by
    have h' : wfPart p = true ∧ wfParts ps = true := by
      rw [show wfParts (.pcons p ps) = (wfPart p && wfParts ps) from rfl,
        Bool.and_eq_true] at h
      exact h
    rw [parseParts_pcons,
      parsePart_eq_plainLeaves p h'.1, parseParts_eq_plainLeavesList ps h'.2]
    rfl

end

lemma parseParts_pnil : parseParts .pnil = some [] := rfl

/-- C6: flattening a MessagePart tree returns exactly the decoded contents of
its `text/plain` leaves in depth-first left-to-right order — recursing into
every child of any node whose mime type starts with `multipart` and skipping
all other non-text nodes — for every tree satisfying the data-model
invariant (text leaves carry a body); and the result is invariant under
extra multipart nesting, so it is independent of nesting depth. -/
theorem claim6_flatten_order :
    (∀ t : MessagePart, wfPart t = true → parsePart t = some (plainLeaves t)) ∧
    (∀ t : MessagePart,
      parsePart (.part (str "multipart/mixed") none (.pcons t .pnil)) = parsePart t) := by
  constructor
  · exact parsePart_eq_plainLeaves
  · intro t
    rw [parsePart_part, if_pos (by decide), parseParts_pcons]
    cases hp : parsePart t with
    | none => rfl
    | some xs => simp [parseParts_pnil]

/-- C6, witness: flattening a concrete two-level tree — leaf `"A"`, then a
nested multipart whose children are an attachment and leaf `"B"` — yields
exactly the decoded leaves in order. -/
theorem claim6_witness :
    parsePart
      (.part (str "multipart/mixed") none
        (.pcons (.part (str "text/plain") (some (str "QQ==")) .pnil)
          (.pcons
            (.part (str "multipart/alternative") none
              (.pcons (.part (str "application/pdf") (some (str "zzzz")) .pnil)
                (.pcons (.part (str "text/plain") (some (str "Qg==")) .pnil) .pnil)))
            .pnil)))
      = some (plainLeaves
          (.part (str "multipart/mixed") none
            (.pcons (.part (str "text/plain") (some (str "QQ==")) .pnil)
              (.pcons
                (.part (str "multipart/alternative") none
                  (.pcons (.part (str "application/pdf") (some (str "zzzz")) .pnil)
                    (.pcons (.part (str "text/plain") (some (str "Qg==")) .pnil) .pnil)))
                .pnil)))) :=
  claim6_flatten_order.1 _ (by decide)

/-- C7: a message whose part tree contains zero `text/plain` leaves produces
no Email entity — `ProcessEmail` returns the explicit absent value
`Except.ok none`, distinguishable from an error — and an Email entity is
produced only when at least one plain-text leaf exists. -/
theorem claim7_no_entity (m : FetchedMessage) (hwf : wfPart m.payload = true) :
    (plainLeaves m.payload = [] → ProcessEmail m = Except.ok none) ∧
    (∀ e : Email, ProcessEmail m = Except.ok (some e) → plainLeaves m.payload ≠ []) := by
  have hp : parsePart m.payload = some (plainLeaves m.payload) :=
    parsePart_eq_plainLeaves _ hwf
  constructor
  · intro hnil
    rw [ProcessEmail, hp, hnil]
    rfl
  · intro e he hnil
    rw [ProcessEmail, hp, hnil] at he
    simp at he

/-- C7, witness: a message whose only part is `text/html` (no plain-text
leaf) yields the absent value, not an error and not an entity. -/
theorem claim7_witness :
    ProcessEmail ⟨.part (str "text/html") (some (str "aGk=")) .pnil, none⟩
      = Except.ok none :=
  (claim7_no_entity ⟨.part (str "text/html") (some (str "aGk=")) .pnil, none⟩
    (by decide)).1 (by decide)

/-- The per-message outcome used to express `GetEmails`'s aggregate: the
produced entity of a successfully processed message, `none` for a message
with no plain-text content. -/
def processedEmail (m : FetchedMessage) : Option Email :=
  match ProcessEmail m with
  | Except.ok r => r
  | Except.error _ => none

lemma processAll_error : ∀ msgs : List FetchedMessage,
    (∃ m ∈ msgs, ProcessEmail m = Except.error ()) →
    processAll msgs = Except.error () := by
  intro msgs
  induction msgs with
  | nil => rintro ⟨m, hm, _⟩; simp at hm
  | cons a t ih =>
    rintro ⟨m, hm, herr⟩
    rw [List.mem_cons] at hm
    rcases hm with rfl | hm
    · rw [processAll, herr]
    · rw [processAll]
      cases ha : ProcessEmail a with
      | error e => rfl
      | ok r => rw [ih ⟨m, hm, herr⟩]

lemma processAll_ok : ∀ msgs : List FetchedMessage,
    (∀ m ∈ msgs, ∃ r, ProcessEmail m = Except.ok r) →
    processAll msgs = Except.ok (msgs.map processedEmail) := by
  intro msgs
  induction msgs with
  | nil => intro _; rfl
  | cons a t ih =>
    intro hok
    obtain ⟨r, hr⟩ := hok a (by simp)
    rw [processAll, hr, ih (fun m hm => hok m (by simp [hm]))]
    have : processedEmail a = r := by rw [processedEmail, hr]
    rw [List.map_cons, this]

/-- C8: batch fail-fast in `GetEmails` — if processing any fetched message of
the batch fails, the whole call fails and no partial aggregate list is
returned; if every message processes successfully, the full list of produced
Email entities is returned (in order, with contentless messages filtered
out, per C7's absent semantics). -/
theorem claim8_batch (msgs : List FetchedMessage) :
    ((∃ m ∈ msgs, ProcessEmail m = Except.error ()) →
      GetEmails msgs = Except.error () ∧
      ∀ l : List Email, GetEmails msgs ≠ Except.ok l) ∧
    ((∀ m ∈ msgs, ∃ r, ProcessEmail m = Except.ok r) →
      GetEmails msgs = Except.ok (msgs.filterMap processedEmail)) := by
  constructor
  · intro hex
    have herr : GetEmails msgs = Except.error () := by
      rw [GetEmails, processAll_error msgs hex]
    exact ⟨herr, fun l hl => by rw [herr] at hl; exact Except.noConfusion hl⟩
  · intro hok
    rw [GetEmails, processAll_ok msgs hok]
    simp [List.filterMap_map]

/-- C8, witness: a concrete two-message batch in which every message
processes successfully returns the full aggregate list. -/
theorem claim8_witness :
    GetEmails
      [⟨.part (str "text/plain") (some (str "QQ==")) .pnil,
        some [⟨str "From", str "a@b.c"⟩]⟩,
       ⟨.part (str "text/html") (some (str "aGk=")) .pnil, none⟩]
      = Except.ok
          ([⟨.part (str "text/plain") (some (str "QQ==")) .pnil,
             some [⟨str "From", str "a@b.c"⟩]⟩,
            (⟨.part (str "text/html") (some (str "aGk=")) .pnil, none⟩ :
              FetchedMessage)].filterMap processedEmail) :=
  (claim8_batch _).2 (by
    intro m hm
    rw [List.mem_cons, List.mem_cons] at hm
    rcases hm with rfl | rfl | hm
    · exact ⟨_, rfl⟩
    · exact ⟨_, rfl⟩
    · simp at hm)

lemma filterMap_b64_junk : ∀ junk : List Char,
    (∀ c ∈ junk, b64Val c = none ∧ c ≠ '=') →
    (junk.takeWhile (fun c => c ≠ '=')).filterMap b64Val = [] := by
  intro junk
  induction junk with
  | nil => intro _; rfl
  | cons a t ih =>
    intro hj
    have ha := hj a (by simp)
    have ht : ∀ c ∈ t, b64Val c = none ∧ c ≠ '=' := fun c hc => hj c (by simp [hc])
    rw [List.takeWhile_cons, if_pos (by simp [ha.2])]
    rw [List.filterMap_cons, ha.1]
    exact ih ht

lemma filterMap_b64_append_junk : ∀ (s junk : List Char),
    (∀ c ∈ junk, b64Val c = none ∧ c ≠ '=') →
    ((s ++ junk).takeWhile (fun c => c ≠ '=')).filterMap b64Val
      = (s.takeWhile (fun c => c ≠ '=')).filterMap b64Val := by
  intro s
  induction s with
  | nil =>
    intro junk hj
    rw [List.nil_append]
    rw [filterMap_b64_junk junk hj]
    rfl
  | cons a t ih =>
    intro junk hj
    by_cases ha : a = '='
    · subst ha
      rw [List.cons_append, List.takeWhile_cons, List.takeWhile_cons]
      rw [if_neg (by simp), if_neg (by simp)]
    · rw [List.cons_append, List.takeWhile_cons, List.takeWhile_cons]
      rw [if_pos (by simp [ha]), if_pos (by simp [ha])]
      rw [List.filterMap_cons, List.filterMap_cons]
      cases hb : b64Val a with
      | none => exact ih junk hj
      | some v => rw [ih junk hj]

/-- C9, counterexample: `"aGVsbG8=###"` is not valid base64, yet decoding
does not fail — it silently yields `"hello"` (the invalid tail is ignored)
instead of propagating a DecodeError. -/
theorem claim9_counterexample : DecodeBase64 (str "aGVsbG8=###") = strN "hello" := by
  decide

/-- C9, amended: leaf payload decoding treats the body as base64 using
Node's forgiving decoder, which has no failure path: appending characters
outside the base64 alphabet (and distinct from the `=` terminator) to any
payload never raises and leaves the decoded bytes unchanged — invalid input
silently decodes to a best-effort string rather than propagating a
DecodeError. -/
theorem claim9_decode_never_fails (s junk : List Char)
    (hj : ∀ c ∈ junk, b64Val c = none ∧ c ≠ '=') :
    DecodeBase64 (s ++ junk) = DecodeBase64 s := by
  rw [DecodeBase64, DecodeBase64, nodeB64Decode, nodeB64Decode,
    filterMap_b64_append_junk s junk hj]

/-- C9, witness: appending the garbage `"###"` to the payload `"aGVsbG8"`
leaves the decode unchanged (and raises nothing). -/
theorem claim9_witness :
    DecodeBase64 (str "aGVsbG8" ++ str "###") = DecodeBase64 (str "aGVsbG8") :=
  claim9_decode_never_fails (str "aGVsbG8") (str "###") (by decide)

lemma ExtractHeader_some (hs : List MessageHeader) (name : List Char) :
    ExtractHeader (some hs) name = Except.ok
      (match hs.filter (fun header => header.name == name) with
       | [] => none
       | h :: _ => some h.value) := by
  rcases hl : hs.filter (fun header => header.name == name) with _ | ⟨h, t⟩ <;>
    simp [ExtractHeader, hl]

lemma filter_head_find (hs : List MessageHeader) (name : List Char) :
    (match hs.filter (fun header => header.name == name) with
     | [] => (none : Option (List Char))
     | h :: _ => some h.value)
      = (hs.find? (fun h => h.name == name)).map MessageHeader.value := by
  induction hs with
  | nil => rfl
  | cons h t ih =>
    by_cases hp : (h.name == name) = true
    · simp [List.filter_cons, List.find?_cons, hp]
    · simp only [List.filter_cons, List.find?_cons, hp, if_false, Bool.false_eq_true]
      rw [ih]

/-- C10, counterexample: header extraction does fail on a missing header
list — `headers.filter` on an absent (`undefined`) list throws a
`TypeError` instead of returning the absent sentinel. -/
theorem claim10_counterexample : ExtractHeader none (str "From") = Except.error () := by
  rfl

/-- C10, amended: for every PRESENT header list (including the empty list)
and every target name, extraction returns the value of the first header
whose name matches the target exactly and case-sensitively, or the explicit
absent sentinel (`null`) when there is no match, and never throws; on an
absent (`undefined`) header list, however, it throws a `TypeError`. -/
theorem claim10_header_extraction :
    (∀ (hs : List MessageHeader) (name : List Char),
      ExtractHeader (some hs) name
        = Except.ok ((hs.find? (fun h => h.name == name)).map MessageHeader.value)) ∧
    (∀ name : List Char, ExtractHeader none name = Except.error ()) := by
  constructor
  · intro hs name
    rw [ExtractHeader_some, filter_head_find]
  · intro name
    rfl
